import Mathlib

/-!
Verification of the LuxTensor currency-unit conversion layer
(`crates/luxtensor-core/src/currency.rs`).

Strings are modelled as `List Char`.  Rust's `u128` is modelled as `Nat`
together with explicit bounds/overflow checks against `2 ^ 128`;
`checked_mul`/`checked_add` become `Option`-valued guards, and
`Result<u128, String>` becomes `Except String Nat`.
-/

namespace Luxtensor

/-- Strings, modelled as lists of characters. -/
abbrev Str := List Char

/-- Number of values of the `u128` type, `2 ^ 128`. -/
def U128_SIZE : Nat := 2 ^ 128

/-- `LTS_PER_MDT`: 10^18 LTS per MDT. -/
def LTS_PER_MDT : Nat := 1000000000000000000

/-- `LTS_PER_KMDT`: 10^21 (1000 MDT). -/
def LTS_PER_KMDT : Nat := 1000000000000000000000

/-- `LTS_PER_MMDT`: 10^24 (1M MDT). -/
def LTS_PER_MMDT : Nat := 1000000000000000000000000

/-- `MDT_DECIMALS`: number of decimal places for MDT. -/
def MDT_DECIMALS : Nat := 18

/-- `mdt_to_lts`: convert MDT to LTS via `checked_mul`, `None` on overflow. -/
def mdt_to_lts (mdt : Nat) : Option Nat :=
  if mdt * LTS_PER_MDT < U128_SIZE then some (mdt * LTS_PER_MDT) else none

/-- `lts_to_mdt`: convert LTS to MDT by integer division (precision loss). -/
def lts_to_mdt (lts : Nat) : Nat := lts / LTS_PER_MDT

/-- ASCII digit test, as performed by Rust's `char::to_digit(10)`:
the code point lies between `'0'` (48) and `'9'` (57). -/
def is_ascii_digit (c : Char) : Bool := 48 ≤ c.toNat && c.toNat ≤ 57

/-- Numeric value of an ASCII digit character. -/
def digitVal (c : Char) : Nat := c.toNat - 48

/-- Value of a big-endian ASCII digit string, as accumulated by Rust's
`from_str_radix` loop (`acc * 10 + digit`). -/
def digitsToNat (s : Str) : Nat :=
  s.foldl (fun acc c => acc * 10 + digitVal c) 0

/-- Sign handling of Rust's `u128::from_str`: a single leading `'+'` is
stripped; anything else (including `'-'`) is left for the digit check. -/
def strip_plus (s : Str) : Str :=
  match s with
  | c :: rest => if c = '+' then rest else s
  | [] => s

/-- Rust's `str::parse::<u128>()`: after stripping one optional leading
`'+'`, the remainder must be a nonempty string of ASCII digits whose value
fits in `u128`; otherwise the parse fails (`InvalidDigit` / overflow). -/
def parse_u128 (s : Str) : Option Nat :=
  let t := strip_plus s
  if t ≠ [] ∧ ∀ c ∈ t, is_ascii_digit c then
    if digitsToNat t < U128_SIZE then some (digitsToNat t) else none
  else none

/-- Decimal digit character for a value below 10 (code point `48 + d`). -/
def digitChar (d : Nat) : Char := Char.ofNat (48 + d)

/-- Big-endian decimal digit string of `n`, with explicit fuel so that the
recursion is structural.  `natToDigitsAux (n+1) n` renders `n` the way
Rust's `Display` for `u128` does. -/
def natToDigitsAux : Nat → Nat → Str
  | 0, _ => []
  | fuel + 1, n =>
    if n < 10 then [digitChar n]
    else natToDigitsAux fuel (n / 10) ++ [digitChar (n % 10)]

/-- Decimal rendering of `n`, as produced by `format!("{}", n)`. -/
def natToDigits (n : Nat) : Str := natToDigitsAux (n + 1) n

/-- `format!("{:0width$}", n, width = w)`: left-pad with `'0'` to width `w`. -/
def padZerosLeft (w : Nat) (s : Str) : Str :=
  List.replicate (w - s.length) '0' ++ s

/-- `format_lts_as_mdt`: render an LTS amount as
`"<whole>.<fractional zero-padded to 18 digits> MDT"`. -/
def format_lts_as_mdt (lts : Nat) : Str :=
  natToDigits (lts / LTS_PER_MDT) ++ '.' ::
    (padZerosLeft MDT_DECIMALS (natToDigits (lts % LTS_PER_MDT)) ++
      [' ', 'M', 'D', 'T'])

/-- `format_lts`: render the raw LTS integer as `"<lts> LTS"`. -/
def format_lts (lts : Nat) : Str := natToDigits lts ++ [' ', 'L', 'T', 'S']

/-- Arm of `parse_mdt_to_lts` for a whole number without a `'.'`. -/
def parse_whole_only (whole_str : Str) : Except String Nat :=
  match parse_u128 whole_str with
  | none => .error "Invalid MDT amount"
  | some whole =>
    match mdt_to_lts whole with
    | none => .error "Amount too large - would overflow"
    | some v => .ok v

/-- Arm of `parse_mdt_to_lts` for input with whole and fractional parts:
parse the whole part, reject fractions longer than `MDT_DECIMALS`,
right-pad the fraction with `'0'` to `MDT_DECIMALS` digits, parse it, and
combine with overflow-checked multiplication and addition. -/
def parse_whole_frac (whole_str frac_str : Str) : Except String Nat :=
  match parse_u128 whole_str with
  | none => .error "Invalid MDT amount"
  | some whole =>
    if MDT_DECIMALS < frac_str.length then
      .error "Too many decimal places (max 18)"
    else
      match parse_u128 (frac_str ++ List.replicate (MDT_DECIMALS - frac_str.length) '0') with
      | none => .error "Invalid fractional amount"
      | some fractional =>
        match mdt_to_lts whole with
        | none => .error "Amount too large - would overflow"
        | some whole_lts =>
          if whole_lts + fractional < U128_SIZE then .ok (whole_lts + fractional)
          else .error "Amount too large - would overflow"

/-- `parse_mdt_to_lts`: split on `'.'` and dispatch on the number of parts
(one part: whole number; two parts: whole and fraction; otherwise error). -/
def parse_mdt_to_lts (mdt_str : Str) : Except String Nat :=
  match mdt_str.splitOn '.' with
  | [whole_str] => parse_whole_only whole_str
  | [whole_str, frac_str] => parse_whole_frac whole_str frac_str
  | _ => .error "Invalid MDT format"

/-- Strip the four-character `" MDT"` suffix from a rendered amount. -/
def strip_mdt_suffix (s : Str) : Str := s.take (s.length - 4)

/-! ### Digit arithmetic lemmas -/

theorem LTS_PER_MDT_eq_pow : LTS_PER_MDT = 10 ^ MDT_DECIMALS := by decide

theorem digitVal_digitChar {d : Nat} (h : d < 10) : digitVal (digitChar d) = d := by
  interval_cases d <;> decide

theorem digitChar_is_digit {d : Nat} (h : d < 10) : is_ascii_digit (digitChar d) = true := by
  interval_cases d <;> decide

theorem is_ascii_digit_ne_dot {c : Char} (h : is_ascii_digit c = true) : c ≠ '.' := by
  rintro rfl; exact absurd h (by decide)

theorem is_ascii_digit_ne_plus {c : Char} (h : is_ascii_digit c = true) : c ≠ '+' := by
  rintro rfl; exact absurd h (by decide)

theorem digitVal_le_nine {c : Char} (h : is_ascii_digit c = true) : digitVal c ≤ 9 := by
  simp only [is_ascii_digit, Bool.and_eq_true, decide_eq_true_eq] at h
  simp only [digitVal]
  omega

theorem digitsToNat_foldl (s : Str) (a : Nat) :
    s.foldl (fun acc c => acc * 10 + digitVal c) a = a * 10 ^ s.length + digitsToNat s := by
  induction s generalizing a with
  | nil => simp [digitsToNat]
  | cons c t ih =>
    simp only [digitsToNat, List.foldl_cons, List.length_cons]
    rw [ih (a * 10 + digitVal c), ih (0 * 10 + digitVal c)]
    ring

theorem digitsToNat_cons (c : Char) (s : Str) :
    digitsToNat (c :: s) = digitVal c * 10 ^ s.length + digitsToNat s := by
  simp only [digitsToNat, List.foldl_cons]
  rw [digitsToNat_foldl]
  ring_nf
  simp [digitsToNat]

theorem digitsToNat_append (s t : Str) :
    digitsToNat (s ++ t) = digitsToNat s * 10 ^ t.length + digitsToNat t := by
  simp only [digitsToNat, List.foldl_append]
  rw [digitsToNat_foldl]
  rfl

theorem digitsToNat_replicate_zero (k : Nat) :
    digitsToNat (List.replicate k '0') = 0 := by
  induction k with
  | zero => rfl
  | succ n ih =>
    rw [List.replicate_succ, digitsToNat_cons, ih]
    simp [digitVal]

theorem digitsToNat_lt (s : Str) (h : ∀ c ∈ s, is_ascii_digit c = true) :
    digitsToNat s < 10 ^ s.length := by
  induction s with
  | nil => decide
  | cons c t ih =>
    rw [digitsToNat_cons, List.length_cons, pow_succ]
    have hc : digitVal c ≤ 9 := digitVal_le_nine (h c (by simp))
    have ht : digitsToNat t < 10 ^ t.length := ih fun x hx => h x (by simp [hx])
    nlinarith [pow_pos (show 0 < 10 by decide) t.length]

/-! ### Rendering lemmas -/

theorem natToDigitsAux_congr : ∀ f₁ f₂ n, n < f₁ → n < f₂ →
    natToDigitsAux f₁ n = natToDigitsAux f₂ n := by
  intro f₁
  induction f₁ with
  | zero => intro f₂ n h; omega
  | succ g ih =>
    intro f₂ n h₁ h₂
    match f₂, h₂ with
    | g₂ + 1, h₂ =>
      simp only [natToDigitsAux]
      by_cases h10 : n < 10
      · simp [h10]
      · have hd : n / 10 < n := Nat.div_lt_self (by omega) (by omega)
        simp only [h10, if_false]
        rw [ih g₂ (n / 10) (by omega) (by omega)]

theorem natToDigits_eq (n : Nat) :
    natToDigits n =
      if n < 10 then [digitChar n] else natToDigits (n / 10) ++ [digitChar (n % 10)] := by
  show natToDigitsAux (n + 1) n = _
  simp only [natToDigitsAux]
  by_cases h10 : n < 10
  · simp [h10]
  · have hd : n / 10 < n := Nat.div_lt_self (by omega) (by omega)
    simp only [h10, if_false]
    rw [natToDigitsAux_congr n (n / 10 + 1) (n / 10) (by omega) (by omega)]
    rfl

theorem natToDigits_ne_nil (n : Nat) : natToDigits n ≠ [] := by
  rw [natToDigits_eq]
  split <;> simp

theorem natToDigits_is_digit (n : Nat) : ∀ c ∈ natToDigits n, is_ascii_digit c = true := by
  induction n using Nat.strong_induction_on with
  | _ n ih =>
    rw [natToDigits_eq]
    by_cases h10 : n < 10
    · simp only [h10, if_true, List.mem_singleton]
      rintro c rfl
      exact digitChar_is_digit h10
    · simp only [h10, if_false, List.mem_append, List.mem_singleton]
      rintro c (hc | rfl)
      · exact ih (n / 10) (Nat.div_lt_self (by omega) (by omega)) c hc
      · exact digitChar_is_digit (Nat.mod_lt _ (by omega))

theorem digitsToNat_natToDigits (n : Nat) : digitsToNat (natToDigits n) = n := by
  induction n using Nat.strong_induction_on with
  | _ n ih =>
    rw [natToDigits_eq]
    by_cases h10 : n < 10
    · simp only [h10, if_true]
      rw [digitsToNat_cons]
      simp [digitsToNat, digitVal_digitChar h10]
    · simp only [h10, if_false]
      rw [digitsToNat_append, ih (n / 10) (Nat.div_lt_self (by omega) (by omega))]
      rw [digitsToNat_cons]
      simp only [List.length_singleton, List.length_nil, pow_one, pow_zero]
      have : digitsToNat [] = 0 := rfl
      rw [digitVal_digitChar (Nat.mod_lt _ (by omega))]
      simp [digitsToNat]
      omega

theorem natToDigits_length_le (n k : Nat) (h1 : 0 < k) (h2 : n < 10 ^ k) :
    (natToDigits n).length ≤ k := by
  induction n using Nat.strong_induction_on generalizing k with
  | _ n ih =>
    rw [natToDigits_eq]
    by_cases h10 : n < 10
    · simp only [h10, if_true, List.length_singleton]
      omega
    · simp only [h10, if_false, List.length_append, List.length_singleton]
      match k, h1 with
      | 1, _ => omega
      | k' + 2, _ =>
        have hdlt : n / 10 < 10 ^ (k' + 1) := by
          rw [Nat.div_lt_iff_lt_mul (by omega)]
          calc n < 10 ^ (k' + 2) := h2
            _ = 10 ^ (k' + 1) * 10 := by ring
        have := ih (n / 10) (Nat.div_lt_self (by omega) (by omega)) (k' + 1) (by omega) hdlt
        omega

/-! ### `parse_u128` lemmas -/

theorem strip_plus_of_digits (s : Str) (h : ∀ c ∈ s, is_ascii_digit c = true) :
    strip_plus s = s := by
  match s with
  | [] => rfl
  | c :: rest =>
    simp only [strip_plus]
    rw [if_neg]
    exact is_ascii_digit_ne_plus (h c (by simp))

theorem parse_u128_digits (s : Str) (h1 : s ≠ []) (h2 : ∀ c ∈ s, is_ascii_digit c = true)
    (h3 : digitsToNat s < U128_SIZE) : parse_u128 s = some (digitsToNat s) := by
  simp only [parse_u128, strip_plus_of_digits s h2]
  rw [if_pos ⟨h1, h2⟩, if_pos h3]

theorem parse_u128_nondigit (s : Str) (h : ∃ c ∈ strip_plus s, is_ascii_digit c = false) :
    parse_u128 s = none := by
  simp only [parse_u128]
  rw [if_neg]
  rintro ⟨-, hall⟩
  obtain ⟨c, hc, hcd⟩ := h
  exact absurd (hall c hc) (by simp [hcd])

/-! ### `splitOn` lemmas -/

theorem splitOn_no_dot (s : Str) (h : '.' ∉ s) : s.splitOn '.' = [s] := by
  apply List.splitOnP_eq_single
  intro x hx hbeq
  rw [beq_iff_eq] at hbeq
  exact h (hbeq ▸ hx)

theorem splitOn_dot_append (w f : Str) (hw : '.' ∉ w) (hf : '.' ∉ f) :
    (w ++ '.' :: f).splitOn '.' = [w, f] := by
  show (w ++ '.' :: f).splitOnP (· == '.') = [w, f]
  rw [List.splitOnP_first (· == '.') w ?_ '.' (by simp) f]
  · rw [show f.splitOnP (· == '.') = f.splitOn '.' from rfl, splitOn_no_dot f hf]
  · intro x hx hbeq
    rw [beq_iff_eq] at hbeq
    exact hw (hbeq ▸ hx)

theorem length_splitOn_dot (s : Str) :
    (s.splitOn '.').length = s.count '.' + 1 := by
  induction s with
  | nil => rfl
  | cons c t ih =>
    show ((c :: t).splitOnP (· == '.')).length = _
    rw [List.splitOnP_cons]
    by_cases hc : c = '.'
    · subst hc
      simp only [beq_self_eq_true, if_true, List.length_cons]
      rw [show t.splitOnP (· == '.') = t.splitOn '.' from rfl, ih]
      simp [List.count_cons]
    · have hbeq : (c == '.') = false := by simp [hc]
      simp only [hbeq, Bool.false_eq_true, if_false, List.length_modifyHead]
      rw [show t.splitOnP (· == '.') = t.splitOn '.' from rfl, ih]
      simp [List.count_cons, hc]

/-! ### Reduction lemmas for `parse_mdt_to_lts` -/

theorem parse_mdt_single (w : Str) (hw : '.' ∉ w) :
    parse_mdt_to_lts w = parse_whole_only w := by
  simp only [parse_mdt_to_lts, splitOn_no_dot w hw]

theorem parse_mdt_two (w f : Str) (hw : '.' ∉ w) (hf : '.' ∉ f) :
    parse_mdt_to_lts (w ++ '.' :: f) = parse_whole_frac w f := by
  simp only [parse_mdt_to_lts, splitOn_dot_append w f hw hf]

theorem parse_mdt_many (s : Str) (h : 2 ≤ s.count '.') :
    parse_mdt_to_lts s = .error "Invalid MDT format" := by
  have hlen : 3 ≤ (s.splitOn '.').length := by
    rw [length_splitOn_dot]; omega
  simp only [parse_mdt_to_lts]
  match hp : s.splitOn '.', hlen with
  | a :: b :: c :: t, _ => rfl

/-! ### Evaluation of the parse arms on digit strings -/

theorem no_dot_of_digits {s : Str} (h : ∀ c ∈ s, is_ascii_digit c = true) : '.' ∉ s :=
  fun hmem => is_ascii_digit_ne_dot (h _ hmem) rfl

theorem parse_whole_only_digits (w : Str) (h1 : w ≠ [])
    (h2 : ∀ c ∈ w, is_ascii_digit c = true)
    (h3 : digitsToNat w * LTS_PER_MDT < U128_SIZE) :
    parse_whole_only w = .ok (digitsToNat w * LTS_PER_MDT) := by
  have hw : digitsToNat w < U128_SIZE :=
    lt_of_le_of_lt (Nat.le_mul_of_pos_right _ (by decide)) h3
  simp only [parse_whole_only, parse_u128_digits w h1 h2 hw, mdt_to_lts, if_pos h3]

theorem padded_frac_digits (f : Str) (hf : ∀ c ∈ f, is_ascii_digit c = true) :
    ∀ c ∈ f ++ List.replicate (MDT_DECIMALS - f.length) '0', is_ascii_digit c = true := by
  intro c hc
  rcases List.mem_append.1 hc with h | h
  · exact hf c h
  · rw [List.eq_of_mem_replicate h]; decide

theorem digitsToNat_padded (f : Str) :
    digitsToNat (f ++ List.replicate (MDT_DECIMALS - f.length) '0') =
      digitsToNat f * 10 ^ (MDT_DECIMALS - f.length) := by
  rw [digitsToNat_append, digitsToNat_replicate_zero, List.length_replicate]
  omega

theorem parse_whole_frac_digits (w f : Str)
    (hw1 : w ≠ []) (hw2 : ∀ c ∈ w, is_ascii_digit c = true)
    (hf2 : ∀ c ∈ f, is_ascii_digit c = true) (hfl : f.length ≤ MDT_DECIMALS)
    (hfit : digitsToNat w * LTS_PER_MDT +
        digitsToNat f * 10 ^ (MDT_DECIMALS - f.length) < U128_SIZE) :
    parse_whole_frac w f =
      .ok (digitsToNat w * LTS_PER_MDT + digitsToNat f * 10 ^ (MDT_DECIMALS - f.length)) := by
  have hwlt : digitsToNat w * LTS_PER_MDT < U128_SIZE := by omega
  have hws : digitsToNat w < U128_SIZE :=
    lt_of_le_of_lt (Nat.le_mul_of_pos_right _ (by decide)) hwlt
  have hpne : f ++ List.replicate (MDT_DECIMALS - f.length) '0' ≠ [] := by
    intro hc
    have := congrArg List.length hc
    simp only [List.length_append, List.length_replicate, List.length_nil] at this
    simp only [MDT_DECIMALS] at hfl this
    omega
  have hplt : digitsToNat (f ++ List.replicate (MDT_DECIMALS - f.length) '0') < U128_SIZE := by
    have hlen : (f ++ List.replicate (MDT_DECIMALS - f.length) '0').length = MDT_DECIMALS := by
      simp only [List.length_append, List.length_replicate]
      omega
    have := digitsToNat_lt _ (padded_frac_digits f hf2)
    rw [hlen] at this
    calc digitsToNat (f ++ List.replicate (MDT_DECIMALS - f.length) '0')
        < 10 ^ MDT_DECIMALS := this
      _ < U128_SIZE := by decide
  simp only [parse_whole_frac, parse_u128_digits w hw1 hw2 hws,
    if_neg (show ¬ MDT_DECIMALS < f.length by omega),
    parse_u128_digits _ hpne (padded_frac_digits f hf2) hplt,
    digitsToNat_padded, mdt_to_lts, if_pos hwlt, if_pos hfit]

/-! ### The core of the stripped round trip -/

theorem parse_format_core (a : Nat) (h : a < U128_SIZE) :
    parse_mdt_to_lts (natToDigits (a / LTS_PER_MDT) ++ '.' ::
      padZerosLeft MDT_DECIMALS (natToDigits (a % LTS_PER_MDT))) = .ok a := by
  have hwd := natToDigits_is_digit (a / LTS_PER_MDT)
  have hfd : ∀ c ∈ padZerosLeft MDT_DECIMALS (natToDigits (a % LTS_PER_MDT)),
      is_ascii_digit c = true := by
    intro c hc
    rcases List.mem_append.1 hc with h' | h'
    · rw [List.eq_of_mem_replicate h']; decide
    · exact natToDigits_is_digit _ c h'
  have hmod : a % LTS_PER_MDT < 10 ^ MDT_DECIMALS := by
    rw [← LTS_PER_MDT_eq_pow]
    exact Nat.mod_lt _ (by decide)
  have hmlen : (natToDigits (a % LTS_PER_MDT)).length ≤ MDT_DECIMALS :=
    natToDigits_length_le _ _ (by decide) hmod
  have hflen : (padZerosLeft MDT_DECIMALS (natToDigits (a % LTS_PER_MDT))).length
      = MDT_DECIMALS := by
    simp only [padZerosLeft, List.length_append, List.length_replicate]
    omega
  have hfval : digitsToNat (padZerosLeft MDT_DECIMALS (natToDigits (a % LTS_PER_MDT)))
      = a % LTS_PER_MDT := by
    simp only [padZerosLeft]
    rw [digitsToNat_append, digitsToNat_replicate_zero, digitsToNat_natToDigits]
    omega
  rw [parse_mdt_two _ _ (no_dot_of_digits hwd) (no_dot_of_digits hfd)]
  have hfit : digitsToNat (natToDigits (a / LTS_PER_MDT)) * LTS_PER_MDT +
      digitsToNat (padZerosLeft MDT_DECIMALS (natToDigits (a % LTS_PER_MDT))) *
        10 ^ (MDT_DECIMALS - (padZerosLeft MDT_DECIMALS
          (natToDigits (a % LTS_PER_MDT))).length) < U128_SIZE := by
    rw [digitsToNat_natToDigits, hfval, hflen]
    simp only [Nat.sub_self, pow_zero, mul_one]
    calc a / LTS_PER_MDT * LTS_PER_MDT + a % LTS_PER_MDT = a := Nat.div_add_mod' a _
      _ < U128_SIZE := h
  rw [parse_whole_frac_digits _ _ (natToDigits_ne_nil _) hwd hfd (le_of_eq hflen) hfit]
  rw [digitsToNat_natToDigits, hfval, hflen]
  simp only [Nat.sub_self, pow_zero, mul_one]
  rw [Nat.div_add_mod' a]

theorem format_eq_core_append (a : Nat) :
    format_lts_as_mdt a = (natToDigits (a / LTS_PER_MDT) ++ '.' ::
      padZerosLeft MDT_DECIMALS (natToDigits (a % LTS_PER_MDT))) ++ [' ', 'M', 'D', 'T'] := by
  simp [format_lts_as_mdt]

theorem strip_mdt_suffix_append (core : Str) :
    strip_mdt_suffix (core ++ [' ', 'M', 'D', 'T']) = core := by
  simp only [strip_mdt_suffix, List.length_append]
  rw [show ([' ', 'M', 'D', 'T'] : Str).length = 4 from rfl, Nat.add_sub_cancel]
  exact List.take_left _ _

theorem strip_mdt_suffix_format (a : Nat) :
    strip_mdt_suffix (format_lts_as_mdt a) = natToDigits (a / LTS_PER_MDT) ++ '.' ::
      padZerosLeft MDT_DECIMALS (natToDigits (a % LTS_PER_MDT)) := by
  rw [format_eq_core_append, strip_mdt_suffix_append]

/-! ### The rendered fractional block -/

theorem pad_frac_is_digit (a : Nat) :
    ∀ c ∈ padZerosLeft MDT_DECIMALS (natToDigits (a % LTS_PER_MDT)),
      is_ascii_digit c = true := by
  intro c hc
  rcases List.mem_append.1 hc with h' | h'
  · rw [List.eq_of_mem_replicate h']; decide
  · exact natToDigits_is_digit _ c h'

theorem pad_frac_length (a : Nat) :
    (padZerosLeft MDT_DECIMALS (natToDigits (a % LTS_PER_MDT))).length = MDT_DECIMALS := by
  have hmod : a % LTS_PER_MDT < 10 ^ MDT_DECIMALS := by
    rw [← LTS_PER_MDT_eq_pow]
    exact Nat.mod_lt _ (by decide)
  have := natToDigits_length_le (a % LTS_PER_MDT) MDT_DECIMALS (by decide) hmod
  simp only [padZerosLeft, List.length_append, List.length_replicate]
  omega

theorem pad_frac_val (a : Nat) :
    digitsToNat (padZerosLeft MDT_DECIMALS (natToDigits (a % LTS_PER_MDT)))
      = a % LTS_PER_MDT := by
  simp only [padZerosLeft]
  rw [digitsToNat_append, digitsToNat_replicate_zero, digitsToNat_natToDigits]
  omega

theorem parse_format_full_errs (a : Nat) (h : a < U128_SIZE) :
    parse_mdt_to_lts (format_lts_as_mdt a)
      = .error "Too many decimal places (max 18)" := by
  have hne : '.' ∉ padZerosLeft MDT_DECIMALS (natToDigits (a % LTS_PER_MDT)) ++
      [' ', 'M', 'D', 'T'] := by
    intro hmem
    rcases List.mem_append.1 hmem with h' | h'
    · exact no_dot_of_digits (pad_frac_is_digit a) h'
    · exact absurd h' (by decide)
  show parse_mdt_to_lts (natToDigits (a / LTS_PER_MDT) ++ '.' ::
    (padZerosLeft MDT_DECIMALS (natToDigits (a % LTS_PER_MDT)) ++ [' ', 'M', 'D', 'T'])) = _
  rw [parse_mdt_two _ _ (no_dot_of_digits (natToDigits_is_digit _)) hne]
  have hwlt : a / LTS_PER_MDT < U128_SIZE := lt_of_le_of_lt (Nat.div_le_self a _) h
  have hpw : parse_u128 (natToDigits (a / LTS_PER_MDT)) = some (a / LTS_PER_MDT) := by
    rw [parse_u128_digits _ (natToDigits_ne_nil _) (natToDigits_is_digit _)
      (by rw [digitsToNat_natToDigits]; exact hwlt), digitsToNat_natToDigits]
  have hlen : MDT_DECIMALS < (padZerosLeft MDT_DECIMALS (natToDigits (a % LTS_PER_MDT)) ++
      [' ', 'M', 'D', 'T']).length := by
    rw [List.length_append, pad_frac_length a]
    decide
  simp only [parse_whole_frac, hpw, if_pos hlen]

theorem strip_plus_append_nondigit (f : Str) (k : Nat)
    (h : ∃ c ∈ strip_plus f, is_ascii_digit c = false) :
    ∃ c ∈ strip_plus (f ++ List.replicate k '0'), is_ascii_digit c = false := by
  match f with
  | [] =>
    obtain ⟨c, hc, -⟩ := h
    exact absurd hc (List.not_mem_nil c)
  | c0 :: rest =>
    simp only [strip_plus, List.cons_append] at h ⊢
    by_cases h0 : c0 = '+'
    · rw [if_pos h0] at h ⊢
      obtain ⟨c, hc, hcd⟩ := h
      exact ⟨c, List.mem_append_left _ hc, hcd⟩
    · rw [if_neg h0] at h ⊢
      obtain ⟨c, hc, hcd⟩ := h
      rcases List.mem_cons.1 hc with rfl | hc'
      · exact ⟨c, List.mem_cons_self _ _, hcd⟩
      · exact ⟨c, List.mem_cons_of_mem _ (List.mem_append_left _ hc'), hcd⟩

/-! ## Claim theorems -/

/-- C1 (counterexample): the claimed full round trip
`parse_mdt_to_lts (format_lts_as_mdt a) = Ok a` fails already at `a = 0`:
the rendered string carries the `" MDT"` suffix, so its fractional segment
is 22 characters long and the parser rejects it. -/
theorem roundtrip_claim_fails_at_zero :
    parse_mdt_to_lts (format_lts_as_mdt 0) = .error "Too many decimal places (max 18)" ∧
    ¬ parse_mdt_to_lts (format_lts_as_mdt 0) = .ok 0 := by
  refine ⟨rfl, fun hcontra => ?_⟩
  rw [show parse_mdt_to_lts (format_lts_as_mdt 0)
    = .error "Too many decimal places (max 18)" from rfl] at hcontra
  exact Except.noConfusion hcontra

/-- C1 (amended): re-parsing the rendered string as produced always fails
with the excess-precision error (the `" MDT"` suffix lands in the
fractional segment), and the exact lossless round trip holds once the
four-character `" MDT"` suffix is removed. -/
theorem roundtrip_amended (a : Nat) (h : a < U128_SIZE) :
    parse_mdt_to_lts (format_lts_as_mdt a) = .error "Too many decimal places (max 18)" ∧
    parse_mdt_to_lts (strip_mdt_suffix (format_lts_as_mdt a)) = .ok a := by
  refine ⟨parse_format_full_errs a h, ?_⟩
  rw [strip_mdt_suffix_format]
  exact parse_format_core a h

/-- C1 (witness): the amended round trip at `a = 5`. -/
theorem roundtrip_amended_witness :
    parse_mdt_to_lts (format_lts_as_mdt 5) = .error "Too many decimal places (max 18)" ∧
    parse_mdt_to_lts (strip_mdt_suffix (format_lts_as_mdt 5)) = .ok 5 :=
  roundtrip_amended 5 (by decide)

/-- C2: `mdt_to_lts d` is exactly `some (d * 10^18)` when the product fits
in 128 bits and `none` (never wrapped or clamped) exactly when it does not;
`mdt_to_lts u128::MAX = none`, `mdt_to_lts 0 = some 0`, and parsing
`"340282366920938463464"` signals the overflow error. -/
theorem mdt_to_lts_overflow_spec :
    (∀ d, d * LTS_PER_MDT < U128_SIZE → mdt_to_lts d = some (d * LTS_PER_MDT)) ∧
    (∀ d, U128_SIZE ≤ d * LTS_PER_MDT → mdt_to_lts d = none) ∧
    mdt_to_lts (U128_SIZE - 1) = none ∧
    mdt_to_lts 0 = some 0 ∧
    parse_mdt_to_lts "340282366920938463464".toList
      = .error "Amount too large - would overflow" := by
  refine ⟨fun d h => ?_, fun d h => ?_, by decide, by decide, rfl⟩
  · rw [mdt_to_lts, if_pos h]
  · rw [mdt_to_lts, if_neg (by omega)]

/-- C2 (witness): the exact product at `d = 1` and overflow at `d = 2^128`. -/
theorem mdt_to_lts_overflow_witness :
    mdt_to_lts 1 = some (1 * LTS_PER_MDT) ∧ mdt_to_lts U128_SIZE = none :=
  ⟨mdt_to_lts_overflow_spec.1 1 (by decide),
   mdt_to_lts_overflow_spec.2.1 U128_SIZE (by decide)⟩

/-- C6: `lts_to_mdt` is floor division by `10^18` and is total (its type is
`Nat → Nat`, with no error path); the quotient bounds of floor division
hold for every atomic amount. -/
theorem lts_to_mdt_floor_div :
    (∀ a, lts_to_mdt a = a / 10 ^ 18) ∧
    (∀ a, lts_to_mdt a * 10 ^ 18 ≤ a ∧ a < lts_to_mdt a * 10 ^ 18 + 10 ^ 18) := by
  have hL : LTS_PER_MDT = 10 ^ 18 := by decide
  constructor
  · intro a
    rw [lts_to_mdt, hL]
  · intro a
    rw [lts_to_mdt, hL]
    constructor
    · exact Nat.div_mul_le_self a _
    · have h1 := Nat.div_add_mod' a (10 ^ 18)
      have h2 : a % 10 ^ 18 < 10 ^ 18 := Nat.mod_lt _ (by norm_num)
      omega

/-- C7: for every display amount whose scaling fits in 128 bits, converting
to LTS and back is the identity. -/
theorem mdt_lts_roundtrip (d : Nat) (h : d * LTS_PER_MDT < U128_SIZE) :
    (mdt_to_lts d).map lts_to_mdt = some d := by
  rw [mdt_to_lts, if_pos h, Option.map_some', lts_to_mdt,
    Nat.mul_div_cancel d (show 0 < LTS_PER_MDT by decide)]

/-- C7 (witness): the whole-amount round trip at `d = 42`. -/
theorem mdt_lts_roundtrip_witness : (mdt_to_lts 42).map lts_to_mdt = some 42 :=
  mdt_lts_roundtrip 42 (by decide)

/-- C9: removing the trailing `" MDT"` suffix from the rendered string
yields a decimal string that re-parses to exactly the original atomic
amount, for every `a` in the 128-bit range. -/
theorem strip_format_roundtrip (a : Nat) (h : a < U128_SIZE) :
    parse_mdt_to_lts (strip_mdt_suffix (format_lts_as_mdt a)) = .ok a := by
  rw [strip_mdt_suffix_format]
  exact parse_format_core a h

/-- C9 (witness): the stripped round trip at `a = 1500000000000000000`. -/
theorem strip_format_roundtrip_witness :
    parse_mdt_to_lts (strip_mdt_suffix (format_lts_as_mdt 1500000000000000000))
      = .ok 1500000000000000000 :=
  strip_format_roundtrip 1500000000000000000 (by decide)

/-- C3: on well-formed input `"<w>"` or `"<w>.<f>"` (digit strings, `f` of
length 1..18), the parser returns `w * 10^18 + f * 10^(18 - len f)`
whenever that value fits in 128 bits; in particular `"1"`, `"1.5"` and
`"0.5"` parse to the expected atomic amounts. -/
theorem parse_valid_forms (w f : Str) :
    (w ≠ [] → (∀ c ∈ w, is_ascii_digit c = true) →
      digitsToNat w * LTS_PER_MDT < U128_SIZE →
      parse_mdt_to_lts w = .ok (digitsToNat w * LTS_PER_MDT)) ∧
    (w ≠ [] → (∀ c ∈ w, is_ascii_digit c = true) →
      f ≠ [] → (∀ c ∈ f, is_ascii_digit c = true) →
      1 ≤ f.length → f.length ≤ MDT_DECIMALS →
      digitsToNat w * LTS_PER_MDT +
        digitsToNat f * 10 ^ (MDT_DECIMALS - f.length) < U128_SIZE →
      parse_mdt_to_lts (w ++ '.' :: f) =
        .ok (digitsToNat w * LTS_PER_MDT +
          digitsToNat f * 10 ^ (MDT_DECIMALS - f.length))) ∧
    parse_mdt_to_lts "1".toList = .ok 1000000000000000000 ∧
    parse_mdt_to_lts "1.5".toList = .ok 1500000000000000000 ∧
    parse_mdt_to_lts "0.5".toList = .ok 500000000000000000 := by
  refine ⟨fun h1 h2 h3 => ?_, fun h1 h2 _ hf2 _ hfl hfit => ?_, rfl, rfl, rfl⟩
  · rw [parse_mdt_single w (no_dot_of_digits h2)]
    exact parse_whole_only_digits w h1 h2 h3
  · rw [parse_mdt_two w f (no_dot_of_digits h2) (no_dot_of_digits hf2)]
    exact parse_whole_frac_digits w f h1 h2 hf2 hfl hfit

/-- C3 (witness): the general clauses at `w = "2"`, `f = "5"`. -/
theorem parse_valid_forms_witness :
    parse_mdt_to_lts ['2'] = .ok (digitsToNat ['2'] * LTS_PER_MDT) ∧
    parse_mdt_to_lts (['2'] ++ '.' :: ['5']) =
      .ok (digitsToNat ['2'] * LTS_PER_MDT +
        digitsToNat ['5'] * 10 ^ (MDT_DECIMALS - (['5'] : Str).length)) :=
  ⟨(parse_valid_forms ['2'] ['5']).1 (by decide) (by decide) (by decide),
   (parse_valid_forms ['2'] ['5']).2.1 (by decide) (by decide) (by decide)
     (by decide) (by decide) (by decide) (by decide)⟩

/-- C4: the parser returns an error (never a truncated or rounded value)
when the input has two or more `'.'` separators, when the whole segment is
not a valid `u128` numeral, or when the fractional segment has more than 18
characters; `"1.1.1"`, `"invalid"` and `"1.1234567890123456789"` all
error. -/
theorem parse_malformed_errors :
    (∀ s : Str, 2 ≤ s.count '.' → parse_mdt_to_lts s = .error "Invalid MDT format") ∧
    (∀ w : Str, '.' ∉ w → parse_u128 w = none →
      parse_mdt_to_lts w = .error "Invalid MDT amount") ∧
    (∀ w f : Str, '.' ∉ w → '.' ∉ f → parse_u128 w = none →
      parse_mdt_to_lts (w ++ '.' :: f) = .error "Invalid MDT amount") ∧
    (∀ w f : Str, '.' ∉ w → '.' ∉ f → MDT_DECIMALS < f.length →
      ∃ e, parse_mdt_to_lts (w ++ '.' :: f) = .error e) ∧
    parse_mdt_to_lts "1.1.1".toList = .error "Invalid MDT format" ∧
    parse_mdt_to_lts "invalid".toList = .error "Invalid MDT amount" ∧
    parse_mdt_to_lts "1.1234567890123456789".toList
      = .error "Too many decimal places (max 18)" := by
  refine ⟨fun s h => parse_mdt_many s h, fun w hw hu => ?_,
    fun w f hw hf hu => ?_, fun w f hw hf hfl => ?_, rfl, rfl, rfl⟩
  · rw [parse_mdt_single w hw]
    simp only [parse_whole_only, hu]
  · rw [parse_mdt_two w f hw hf]
    simp only [parse_whole_frac, hu]
  · rw [parse_mdt_two w f hw hf]
    match hu : parse_u128 w with
    | none =>
      exact ⟨"Invalid MDT amount", by simp only [parse_whole_frac, hu]⟩
    | some v =>
      exact ⟨"Too many decimal places (max 18)",
        by simp only [parse_whole_frac, hu, if_pos hfl]⟩

/-- C4 (witness): the general clauses at `".."`, `"x"`, `"y.2"` and a
19-character fractional part. -/
theorem parse_malformed_errors_witness :
    parse_mdt_to_lts ['.', '.'] = .error "Invalid MDT format" ∧
    parse_mdt_to_lts ['x'] = .error "Invalid MDT amount" ∧
    parse_mdt_to_lts (['y'] ++ '.' :: ['2']) = .error "Invalid MDT amount" ∧
    ∃ e, parse_mdt_to_lts (['1'] ++ '.' :: List.replicate 19 '2') = .error e :=
  ⟨parse_malformed_errors.1 ['.', '.'] (by decide),
   parse_malformed_errors.2.1 ['x'] (by decide) (by decide),
   parse_malformed_errors.2.2.1 ['y'] ['2'] (by decide) (by decide) (by decide),
   parse_malformed_errors.2.2.2.1 ['1'] (List.replicate 19 '2')
     (by decide) (by decide) (by decide)⟩

/-- C5 (counterexample): the claim that a leading `'+'` is a parse error is
false: Rust's `u128` parser strips one leading `'+'`, so `"+1"` is
accepted and parses to `10^18`. -/
theorem parse_plus_accepted : parse_mdt_to_lts "+1".toList = .ok 1000000000000000000 :=
  rfl

/-- C5 (amended): a segment containing any non-digit character other than a
single leading `'+'` (what survives `strip_plus`) is a parse error, in the
whole part and in the fractional part alike; a single leading `'+'` is
tolerated by the underlying unsigned parser, e.g. `"+1"` parses to
`10^18`. -/
theorem parse_nondigit_rejection :
    (∀ w : Str, '.' ∉ w → (∃ c ∈ strip_plus w, is_ascii_digit c = false) →
      parse_mdt_to_lts w = .error "Invalid MDT amount") ∧
    (∀ w f : Str, '.' ∉ w → '.' ∉ f → (∃ c ∈ strip_plus w, is_ascii_digit c = false) →
      parse_mdt_to_lts (w ++ '.' :: f) = .error "Invalid MDT amount") ∧
    (∀ w f : Str, '.' ∉ w → '.' ∉ f → f.length ≤ MDT_DECIMALS →
      (∃ c ∈ strip_plus f, is_ascii_digit c = false) →
      ∃ e, parse_mdt_to_lts (w ++ '.' :: f) = .error e) ∧
    parse_mdt_to_lts "+1".toList = .ok 1000000000000000000 := by
  refine ⟨fun w hw hnd => ?_, fun w f hw hf hnd => ?_,
    fun w f hw hf hfl hnd => ?_, rfl⟩
  · rw [parse_mdt_single w hw]
    simp only [parse_whole_only, parse_u128_nondigit w hnd]
  · rw [parse_mdt_two w f hw hf]
    simp only [parse_whole_frac, parse_u128_nondigit w hnd]
  · rw [parse_mdt_two w f hw hf]
    have hpf : parse_u128 (f ++ List.replicate (MDT_DECIMALS - f.length) '0') = none :=
      parse_u128_nondigit _ (strip_plus_append_nondigit f _ hnd)
    match hu : parse_u128 w with
    | none =>
      exact ⟨"Invalid MDT amount", by simp only [parse_whole_frac, hu]⟩
    | some v =>
      exact ⟨"Invalid fractional amount",
        by simp only [parse_whole_frac, hu, if_neg (show ¬ MDT_DECIMALS < f.length by omega),
          hpf]⟩

/-- C5 (witness): the amended clauses at `"+x"` and `"1.x"`. -/
theorem parse_nondigit_rejection_witness :
    parse_mdt_to_lts ['+', 'x'] = .error "Invalid MDT amount" ∧
    ∃ e, parse_mdt_to_lts (['1'] ++ '.' :: ['x']) = .error e :=
  ⟨parse_nondigit_rejection.1 ['+', 'x'] (by decide) ⟨'x', by decide, by decide⟩,
   parse_nondigit_rejection.2.2.1 ['1'] ['x'] (by decide) (by decide) (by decide)
     ⟨'x', by decide, by decide⟩⟩

/-- C8: the rendered MDT string is the whole quotient, a `'.'`, exactly 18
digit characters whose value is `a % 10^18`, and the `" MDT"` symbol, for
every `a`; `format_lts` is the raw integer with `" LTS"`. Both are total
functions. The two concrete renderings match the spec. -/
theorem format_spec :
    (∀ a, format_lts_as_mdt a = (natToDigits (a / LTS_PER_MDT) ++ '.' ::
        padZerosLeft MDT_DECIMALS (natToDigits (a % LTS_PER_MDT))) ++ [' ', 'M', 'D', 'T'] ∧
      (padZerosLeft MDT_DECIMALS (natToDigits (a % LTS_PER_MDT))).length = MDT_DECIMALS ∧
      (∀ c ∈ padZerosLeft MDT_DECIMALS (natToDigits (a % LTS_PER_MDT)),
        is_ascii_digit c = true) ∧
      digitsToNat (padZerosLeft MDT_DECIMALS (natToDigits (a % LTS_PER_MDT)))
        = a % LTS_PER_MDT ∧
      digitsToNat (natToDigits (a / LTS_PER_MDT)) = a / LTS_PER_MDT) ∧
    (∀ a, format_lts a = natToDigits a ++ [' ', 'L', 'T', 'S']) ∧
    format_lts_as_mdt 1500000000000000000 = "1.500000000000000000 MDT".toList ∧
    format_lts 0 = "0 LTS".toList := by
  refine ⟨fun a => ⟨format_eq_core_append a, pad_frac_length a, pad_frac_is_digit a,
    pad_frac_val a, digitsToNat_natToDigits _⟩, fun a => rfl, by decide, by decide⟩

/-- C8 (witness): the digit-character clause at `a = 1500000000000000000`,
`c = '5'`. -/
theorem format_spec_witness :
    is_ascii_digit '5' = true ∧
    (padZerosLeft MDT_DECIMALS (natToDigits (1500000000000000000 % LTS_PER_MDT))).length
      = MDT_DECIMALS :=
  ⟨(format_spec.1 1500000000000000000).2.2.1 '5' (by decide),
   (format_spec.1 1500000000000000000).2.1⟩

/-- C10: the parser accepts `"<w>."` with an empty fractional segment (a
shape outside the spec's two accepted forms) and returns `w * 10^18`; in
particular `"1."` parses to `10^18` rather than erroring. -/
theorem parse_trailing_dot :
    (∀ w : Str, w ≠ [] → (∀ c ∈ w, is_ascii_digit c = true) →
      digitsToNat w * LTS_PER_MDT < U128_SIZE →
      parse_mdt_to_lts (w ++ ['.']) = .ok (digitsToNat w * LTS_PER_MDT)) ∧
    parse_mdt_to_lts "1.".toList = .ok 1000000000000000000 := by
  refine ⟨fun w h1 h2 h3 => ?_, rfl⟩
  rw [show w ++ ['.'] = w ++ '.' :: ([] : Str) from rfl,
    parse_mdt_two w [] (no_dot_of_digits h2) (by simp)]
  have hfit : digitsToNat w * LTS_PER_MDT +
      digitsToNat ([] : Str) * 10 ^ (MDT_DECIMALS - ([] : Str).length) < U128_SIZE := by
    rw [show digitsToNat ([] : Str) = 0 from rfl]
    omega
  rw [parse_whole_frac_digits w [] h1 h2
    (fun c hc => absurd hc (List.not_mem_nil c)) (by decide) hfit]
  rw [show digitsToNat ([] : Str) = 0 from rfl]
  norm_num

/-- C10 (witness): the trailing-dot clause at `w = "7"`. -/
theorem parse_trailing_dot_witness :
    parse_mdt_to_lts (['7'] ++ ['.']) = .ok (digitsToNat ['7'] * LTS_PER_MDT) :=
  parse_trailing_dot.1 ['7'] (by decide) (by decide) (by decide)

end Luxtensor
